import Mathlib

/-!
# Verification of the streaming batched CSV-ingestion pipeline

Shallow embedding of `src/challenge.ts` and `src/runner.ts`.

The heart of the embedding is `insertDataWithSummary` (the stream job):
its `data`/`end`/`error` event handlers are modelled as explicit state
transformers over `LoopState`.  The main model (`runJob`) fixes the
serialized event schedule (each handler runs to completion before the
next event fires); the separate small-step relation `AsyncStep` models
the actual Node semantics in which the CSV stream keeps emitting `data`
events while a commit `await` is outstanding, because the code never
pauses the stream.

Promise semantics are modelled faithfully: the first `resolve`/`reject`
wins (`settle`), later settlement calls are no-ops, but side effects
(database attempts, failure logging) keep happening afterwards because
nothing stops the stream.
-/

namespace DataPipeline

/-- A parsed CSV row: field name to field value, in header order. -/
abbrev Record := List (String × String)

/-- A batch handed to the sink in one transaction. -/
abbrev Batch := List Record

/-- Outcome of one `db.transaction` call, from the caller's viewpoint.
`ok`: insert and COMMIT both succeeded.  `failInsert`: the insert itself
raised, so `totalRowCount += rows.length` was never reached.
`failCommit`: the insert succeeded and the counter was already
incremented inside the transaction callback, but the COMMIT phase
failed, so the transaction rolled back. -/
inductive SinkRes
  | ok
  | failInsert
  | failCommit
deriving DecidableEq

/-- Settlement of the promise returned by `insertDataWithSummary`:
`resolve(totalRowCount)` or `reject({ totalRowCount, message })`. -/
inductive Settle
  | resolved (total : Nat)
  | rejected (total : Nat) (msg : String)
deriving DecidableEq

/-- The rejection message built in both commit-failure paths. -/
def stoppedMsg (tableName : String) : String :=
  "Stopped processing " ++ tableName ++ " due to an error."

/-- The rejection message of the stream `error` handler. -/
def csvErrorMsg (tableName err : String) : String :=
  "Error reading CSV file for " ++ tableName ++ ": " ++ err

/-- First settlement wins; a later `resolve`/`reject` is a no-op. -/
def settle (o : Option Settle) (v : Settle) : Option Settle :=
  match o with
  | some s => some s
  | none => some v

/-- State of one job (`insertDataWithSummary` invocation).
`total` is the mutable `totalRowCount`, `buf` the mutable `rows` array,
`attempts` the batches handed to `db.transaction` in order, `logged`
the batches handed to `logFailedRows` whose append succeeded, `store`
the durable destination rows, `settled` the promise settlement. -/
structure LoopState where
  total : Nat
  buf : List Record
  attempts : List Batch
  logged : List Batch
  store : List Record
  settled : Option Settle
deriving DecidableEq

/-- State at the start of a job: zero count, empty buffer, unsettled. -/
def initState : LoopState := ⟨0, [], [], [], [], none⟩

/-- Modelled from the spec: the durable destination store and the
transactional all-or-nothing guarantee of §4.2.  The rollback itself is
performed by the knex/SQLite transaction, which is external to `src/`:
on success the whole batch is appended, on any failure the store is
left exactly as it was. -/
def sinkApply : SinkRes → List Record → Batch → List Record
  | .ok, store, batch => store ++ batch
  | .failInsert, store, _ => store
  | .failCommit, store, _ => store

/-- The `data` event handler, serialized schedule.  `sink i` is the
outcome of the `i`-th `db.transaction` call (0-based).  `appendOk`
says whether `fs.appendFileSync` inside `logFailedRows` succeeds; when
it throws, the exception escapes the `catch` block and the `reject`
call is never reached, so the settlement is untouched. -/
def onData (capacity : Nat) (sink : Nat → SinkRes) (appendOk : Bool) (tableName : String)
    (s : LoopState) (r : Record) : LoopState :=
  let buf' := s.buf ++ [r]
  if buf'.length = capacity then
    let res := sink s.attempts.length
    let store' := sinkApply res s.store buf'
    match res with
    | .ok =>
        { s with total := s.total + buf'.length, buf := [],
                 attempts := s.attempts ++ [buf'], store := store' }
    | .failInsert =>
        { s with buf := buf', attempts := s.attempts ++ [buf'], store := store',
                 logged := if appendOk then s.logged ++ [buf'] else s.logged,
                 settled := if appendOk then
                     settle s.settled (.rejected s.total (stoppedMsg tableName))
                   else s.settled }
    | .failCommit =>
        { s with total := s.total + buf'.length, buf := buf',
                 attempts := s.attempts ++ [buf'], store := store',
                 logged := if appendOk then s.logged ++ [buf'] else s.logged,
                 settled := if appendOk then
                     settle s.settled
                       (.rejected (s.total + buf'.length) (stoppedMsg tableName))
                   else s.settled }
  else
    { s with buf := buf' }

/-- The `end` event handler: commit the trailing partial buffer if any,
then `resolve(totalRowCount)` (skipped on the failure paths, which
`return reject(...)` or let the logger's exception escape). -/
def onEnd (sink : Nat → SinkRes) (appendOk : Bool) (tableName : String)
    (s : LoopState) : LoopState :=
  if s.buf.length > 0 then
    let res := sink s.attempts.length
    let store' := sinkApply res s.store s.buf
    match res with
    | .ok =>
        { s with total := s.total + s.buf.length,
                 attempts := s.attempts ++ [s.buf], store := store',
                 settled := settle s.settled (.resolved (s.total + s.buf.length)) }
    | .failInsert =>
        { s with attempts := s.attempts ++ [s.buf], store := store',
                 logged := if appendOk then s.logged ++ [s.buf] else s.logged,
                 settled := if appendOk then
                     settle s.settled (.rejected s.total (stoppedMsg tableName))
                   else s.settled }
    | .failCommit =>
        { s with total := s.total + s.buf.length,
                 attempts := s.attempts ++ [s.buf], store := store',
                 logged := if appendOk then s.logged ++ [s.buf] else s.logged,
                 settled := if appendOk then
                     settle s.settled
                       (.rejected (s.total + s.buf.length) (stoppedMsg tableName))
                   else s.settled }
  else
    { s with settled := settle s.settled (.resolved s.total) }

/-- How the record source terminates: clean end of data, or a decode
error carrying the stream error text. -/
inductive SourceEnd
  | eof
  | decodeError (err : String)

/-- The fold over all delivered `data` events, serialized schedule. -/
def dataPhase (capacity : Nat) (sink : Nat → SinkRes) (appendOk : Bool) (tableName : String)
    (records : List Record) : LoopState :=
  records.foldl (onData capacity sink appendOk tableName) initState

/-- One whole job (`insertDataWithSummary`) under the serialized event
schedule: all `data` events, then either the `end` handler or the
stream `error` handler (a decode error destroys the stream, so `end`
does not fire). -/
def runJob (capacity : Nat) (sink : Nat → SinkRes) (appendOk : Bool) (tableName : String)
    (records : List Record) (ending : SourceEnd) : LoopState :=
  let s := dataPhase capacity sink appendOk tableName records
  match ending with
  | .eof => onEnd sink appendOk tableName s
  | .decodeError err =>
      { s with settled := settle s.settled (.rejected s.total (csvErrorMsg tableName err)) }

/-! ## Failure logger (`logFailedRows`)

The appended text is modelled at the character level:
`rows.map(row => JSON.stringify(row)).join('\n')` followed by the extra
`'\n'` passed to `fs.appendFileSync`.  `JSON.stringify` on a parsed CSV
row (an object whose values are strings) is modelled field by field. -/

/-- The `\x7b` character. -/
def lbraceChar : Char := Char.ofNat 123

/-- The `\x7d` character. -/
def rbraceChar : Char := Char.ofNat 125

/-- JSON string escaping of one character, per `JSON.stringify`. -/
def jsonEscapeChar (c : Char) : List Char :=
  if c = '"' then ['\\', '"']
  else if c = '\\' then ['\\', '\\']
  else if c = '\n' then ['\\', 'n']
  else if c = '\r' then ['\\', 'r']
  else if c = '\t' then ['\\', 't']
  else [c]

/-- JSON string escaping of a whole string. -/
def jsonEscape (s : String) : List Char :=
  (s.toList.map jsonEscapeChar).flatten

/-- A JSON string literal: `"..."` with escaped content. -/
def jsonStringLit (s : String) : List Char :=
  '"' :: jsonEscape s ++ ['"']

/-- One `"key":"value"` JSON member. -/
def jsonField (kv : String × String) : List Char :=
  jsonStringLit kv.1 ++ ':' :: jsonStringLit kv.2

/-- Model of `JSON.stringify` on one parsed CSV row. -/
def jsonRecord (r : Record) : List Char :=
  lbraceChar :: [','].intercalate (r.map jsonField) ++ [rbraceChar]

/-- The `logFailedRows` function: for a non-empty batch, the text appended to
`failed_rows.log`; for an empty batch nothing is appended. -/
def logFailedRows (rows : List Record) : Option (List Char) :=
  if rows.length > 0 then
    some (['\n'].intercalate (rows.map jsonRecord) ++ ['\n'])
  else none

/-- Whether `pat` occurs as a contiguous run inside `l`. -/
def containsSeq (pat l : List Char) : Bool :=
  l.tails.any fun t => pat.isPrefixOf t

/-! ## Batch arithmetic -/

/-- The list split into consecutive pieces of `C` elements, the last
piece possibly shorter.  For `C ≥ 1` this is the sequence of batches a
failure-free job hands to the sink. -/
def chunks (C : Nat) : List Record → List Batch
  | [] => []
  | a :: l => (a :: l.take (C - 1)) :: chunks C (l.drop (C - 1))
termination_by l => l.length
decreasing_by
  simp only [List.length_drop, List.length_cons]
  omega

/-! ## Unserialized event schedule

`AsyncStep` is the small-step semantics of the `data` phase under the
real Node scheduling: `fast-csv` emits `data` events synchronously from
its parse loop and does not wait for the `async` handler's promise, and
`insertDataWithSummary` never calls `pause()` on the stream.  A
`deliver` step is therefore enabled regardless of whether a commit is
outstanding.  A `complete` step is the awaited `db.transaction`
resolving: only then does the handler run `totalRowCount += rows.length`
and `rows.length = 0` (reading `rows` as it is at that moment). -/

/-- State of the `data` phase under the unserialized schedule. -/
structure AsyncState where
  pending : List Record
  buf : List Record
  outstanding : Bool
  total : Nat
deriving DecidableEq

/-- One scheduler step of the unserialized `data` phase. -/
inductive AsyncStep (capacity : Nat) : AsyncState → AsyncState → Prop
  | deliver (r : Record) (pending buf : List Record) (outstanding : Bool) (total : Nat) :
      AsyncStep capacity
        ⟨r :: pending, buf, outstanding, total⟩
        ⟨pending, buf ++ [r], outstanding || (buf.length + 1 == capacity), total⟩
  | complete (pending buf : List Record) (total : Nat) :
      AsyncStep capacity
        ⟨pending, buf, true, total⟩
        ⟨pending, [], false, total + buf.length⟩

/-! ## Orchestrator (`processDataDump`, job-orchestration section)

Lines 171–203 of `src/challenge.ts`: each of the two hard-coded
resources is processed inside its own `try`/`catch`; the `catch`
extracts `totalRowCount` from the rejection value, logs, and falls
through, so the next resource is always attempted and the final report
always covers both resources. A job is abstracted by the settlement of
its `insertDataWithSummary` promise. -/

/-- What the run reports for one resource: its name, the row count the
orchestrator recorded, and whether the job completed (resolved). -/
structure ResourceReport where
  resource : String
  rows : Nat
  completed : Bool
deriving DecidableEq

/-- The row count the orchestrator extracts from a job's settlement:
the resolved total, or `totalRowCount` from the rejection value. -/
def settleTotal : Settle → Nat
  | .resolved n => n
  | .rejected n _ => n

/-- The report entry for one resource's `try`/`catch` block. -/
def reportOf (resource : String) (outcome : Settle) : ResourceReport :=
  match outcome with
  | .resolved n => ⟨resource, n, true⟩
  | .rejected n _ => ⟨resource, n, false⟩

/-- The orchestration loop of `processDataDump`: customers first, then
organizations, each in its own `try`/`catch`; neither block rethrows. -/
def processDataDump (job : String → Settle) : List ResourceReport :=
  [reportOf "customers" (job "customers"),
   reportOf "organizations" (job "organizations")]

/-! ## Entry point (`src/runner.ts`) -/

/-- The entry point `main`: awaits the pipeline, catches any error (logging it), and
in `finally` calls `process.exit(0)`.  Returns the exit status and
whether the error path logged. -/
def mainExit (pipeline : Except String Unit) : Nat × Bool :=
  match pipeline with
  | .ok _ => (0, false)
  | .error _ => (0, true)

/-! ## Sample records used by concrete counterexamples and witnesses -/

/-- A sample parsed CSV row. -/
def rec1 : Record := [("Customer Id", "c1"), ("First Name", "Aurora")]

/-- A second sample parsed CSV row. -/
def rec2 : Record := [("Customer Id", "c2"), ("First Name", "Basil")]

/-- A third sample parsed CSV row. -/
def rec3 : Record := [("Customer Id", "c3"), ("First Name", "Cedar")]

/-- A sink for which every transaction succeeds. -/
def okSink : Nat → SinkRes := fun _ => SinkRes.ok

/-- A sink whose first transaction fails at the insert and every later
one succeeds. -/
def failFirstSink : Nat → SinkRes := fun i => if i = 0 then .failInsert else .ok

/-- A sink whose every transaction fails at the COMMIT phase, after the
insert inside the callback already succeeded. -/
def commitFailSink : Nat → SinkRes := fun _ => SinkRes.failCommit

/-- A sink whose every transaction fails at the insert. -/
def insertFailSink : Nat → SinkRes := fun _ => SinkRes.failInsert

/-- Whether a settlement is a `resolve` (the job completed). -/
def settleCompleted : Settle → Bool
  | .resolved _ => true
  | .rejected _ _ => false

/-- Unserialized schedule, start: two records to deliver, capacity 1. -/
def a0 : AsyncState := ⟨[rec1, rec2], [], false, 0⟩

/-- After delivering `rec1`: the batch is full, the handler has started
`db.transaction` and returned; the commit is outstanding. -/
def a1 : AsyncState := ⟨[rec2], [rec1], true, 0⟩

/-- After the parser emits the next `data` event while the commit is
still outstanding: `rec2` has entered the buffer. -/
def a2 : AsyncState := ⟨[], [rec1, rec2], true, 0⟩

/-! ## Theorems -/

/-- Settling never leaves a settled promise unsettled. -/
theorem settle_ne_none (o : Option Settle) (v : Settle) : settle o v ≠ none := by
  cases o <;> simp [settle]

/-- Claim C1: the spec requires that record consumption be paused while
a commit is outstanding, so that no new record enters the batch buffer
before the commit returns.  The code never pauses the stream: from the
initial state with capacity 1, after `rec1` fills the batch and its
commit is started (state `a1`, commit outstanding), the very next
scheduler step the code admits is the delivery of `rec2` into the
buffer while the commit is still outstanding. -/
theorem commit_overlap_bug :
    Relation.ReflTransGen (AsyncStep 1) a0 a1 ∧
    AsyncStep 1 a1 a2 ∧
    a1.outstanding = true ∧
    a2.buf = a1.buf ++ [rec2] ∧
    a2.outstanding = true := by
  refine ⟨Relation.ReflTransGen.single ?_, ?_, rfl, rfl, rfl⟩
  · exact AsyncStep.deliver rec1 [rec2] [] false 0
  · exact AsyncStep.deliver rec2 [] [rec1] true 0

/-- Claim C2, counterexample evaluation: capacity 1, records `rec1`,
`rec2`, first commit attempt fails.  The job settles with the
pre-batch total 0 and the failed batch `[rec1]` is logged, but the
stream is never stopped, so `rec2` keeps arriving and at `end` the
leftover buffer `[rec1, rec2]` is handed to the sink: a record of a
batch after the failed one is attempted (and here durably applied)
even though the job already reported failure. -/
theorem post_failure_records_attempted :
    (runJob 1 failFirstSink true "customers" [rec1, rec2] .eof).settled
        = some (.rejected 0 (stoppedMsg "customers")) ∧
    (runJob 1 failFirstSink true "customers" [rec1, rec2] .eof).logged = [[rec1]] ∧
    (runJob 1 failFirstSink true "customers" [rec1, rec2] .eof).attempts
        = [[rec1], [rec1, rec2]] ∧
    rec2 ∈ ((runJob 1 failFirstSink true "customers" [rec1, rec2] .eof).attempts).flatten ∧
    (runJob 1 failFirstSink true "customers" [rec1, rec2] .eof).store = [rec1, rec2] := by
  decide

/-- Claim C3, counterexample evaluation: capacity 1, one record, the
transaction's insert succeeds but its COMMIT phase fails.  Because
`totalRowCount += rows.length` runs inside the transaction callback
before COMMIT is confirmed, the job reports 1 row committed while the
durable store holds nothing. -/
theorem optimistic_total_bug :
    (runJob 1 commitFailSink true "customers" [rec1] .eof).settled
        = some (.rejected 1 (stoppedMsg "customers")) ∧
    (runJob 1 commitFailSink true "customers" [rec1] .eof).store = [] := by
  decide

/-- Claim C7, counterexample evaluation: when the commit of the first
batch fails and `fs.appendFileSync` inside `logFailedRows` throws
(`appendOk = false`), the exception escapes the `catch` block before
`reject` runs, so the job's promise never settles and the CommitError
is lost; with a working logger the same run settles with the
CommitError rejection. -/
theorem log_failure_masks_commit_error :
    (runJob 1 insertFailSink false "customers" [rec1] .eof).settled = none ∧
    (runJob 1 insertFailSink true "customers" [rec1] .eof).settled
        = some (.rejected 0 (stoppedMsg "customers")) := by
  decide

/-- Claim C5: every handler step of a job either touches the durable
store not at all, or hands exactly one batch to the sink; in the latter
case, on success the store is extended by precisely that batch, and on
any failure the store is left exactly as it was (all-or-nothing) and
the failure path hands that same batch verbatim to the failure logger.
The rollback itself is the knex/SQLite transaction, modelled from the
spec by `sinkApply`. -/
theorem commit_atomicity (C : Nat) (sink : Nat → SinkRes) (tn : String) :
    (∀ (s : LoopState) (r : Record),
      ((onData C sink true tn s r).attempts = s.attempts ∧
        (onData C sink true tn s r).store = s.store ∧
        (onData C sink true tn s r).logged = s.logged) ∨
      ∃ b, (onData C sink true tn s r).attempts = s.attempts ++ [b] ∧
        (if sink s.attempts.length = SinkRes.ok then
          (onData C sink true tn s r).store = s.store ++ b ∧
            (onData C sink true tn s r).logged = s.logged
        else
          (onData C sink true tn s r).store = s.store ∧
            (onData C sink true tn s r).logged = s.logged ++ [b])) ∧
    (∀ s : LoopState,
      ((onEnd sink true tn s).attempts = s.attempts ∧
        (onEnd sink true tn s).store = s.store ∧
        (onEnd sink true tn s).logged = s.logged) ∨
      ∃ b, (onEnd sink true tn s).attempts = s.attempts ++ [b] ∧
        (if sink s.attempts.length = SinkRes.ok then
          (onEnd sink true tn s).store = s.store ++ b ∧
            (onEnd sink true tn s).logged = s.logged
        else
          (onEnd sink true tn s).store = s.store ∧
            (onEnd sink true tn s).logged = s.logged ++ [b])) := by
  constructor
  · intro s r
    unfold onData
    by_cases hfull : s.buf.length + 1 = C
    · right
      refine ⟨s.buf ++ [r], ?_⟩
      cases hres : sink s.attempts.length <;>
        simp [hfull, hres, sinkApply]
    · left
      simp [hfull]
  · intro s
    unfold onEnd
    by_cases hfull : s.buf.length > 0
    · right
      refine ⟨s.buf, ?_⟩
      cases hres : sink s.attempts.length <;>
        simp [hfull, hres, sinkApply]
    · left
      simp [hfull]

/-- Claim C6: the orchestrator processes the configured resources in
order inside separate try/catch blocks.  For every pair of job
outcomes the run report lists both resources in order with the row
count extracted from each settlement and the completion flag of each
terminal state, and the report entry of the second resource depends
only on the second job's outcome, so a failed first job never prevents
or alters the second. -/
theorem orchestrator_isolation (job job' : String → Settle) :
    (processDataDump job).map ResourceReport.resource = ["customers", "organizations"] ∧
    (processDataDump job).map ResourceReport.rows
        = [settleTotal (job "customers"), settleTotal (job "organizations")] ∧
    (processDataDump job).map ResourceReport.completed
        = [settleCompleted (job "customers"), settleCompleted (job "organizations")] ∧
    (job "organizations" = job' "organizations" →
        (processDataDump job).getLast? = (processDataDump job').getLast?) := by
  refine ⟨?_, ?_, ?_, ?_⟩
  · cases h1 : job "customers" <;> cases h2 : job "organizations" <;>
      simp [processDataDump, reportOf, h1, h2]
  · cases h1 : job "customers" <;> cases h2 : job "organizations" <;>
      simp [processDataDump, reportOf, settleTotal, h1, h2]
  · cases h1 : job "customers" <;> cases h2 : job "organizations" <;>
      simp [processDataDump, reportOf, settleCompleted, h1, h2]
  · intro h
    simp [processDataDump, h]

/-- Folding fewer records than would fill the buffer only grows the
buffer: no commit is attempted. -/
theorem foldl_onData_small (C : Nat) (sink : Nat → SinkRes) (apOk : Bool) (tn : String)
    (l : List Record) :
    ∀ (s : LoopState), s.buf.length + l.length < C →
      l.foldl (onData C sink apOk tn) s = { s with buf := s.buf ++ l } := by
  induction l with
  | nil => intro s _; simp
  | cons r l ih =>
    intro s h
    simp only [List.length_cons] at h
    have h1 : ¬ s.buf.length + 1 = C := by omega
    simp only [List.foldl_cons]
    have e : onData C sink apOk tn s r = { s with buf := s.buf ++ [r] } := by
      unfold onData
      simp [h1]
    rw [e, ih { s with buf := s.buf ++ [r] } (by simp; omega)]
    simp

/-- Folding exactly one full batch from an empty buffer, when the sink
accepts it: the batch is committed, counted, and cleared. -/
theorem foldl_onData_chunk (C : Nat) (hC : 0 < C) (sink : Nat → SinkRes) (apOk : Bool)
    (tn : String)
    (l : List Record) (hl : l.length = C) (s : LoopState) (hbuf : s.buf = [])
    (hsink : sink s.attempts.length = .ok) :
    l.foldl (onData C sink apOk tn) s =
      { s with total := s.total + C, buf := [],
               attempts := s.attempts ++ [l], store := s.store ++ l } := by
  have hne : l ≠ [] := by
    intro e; rw [e] at hl; simp at hl; omega
  obtain ⟨l', a, rfl⟩ : ∃ l' a, l = l' ++ [a] :=
    ⟨l.dropLast, l.getLast hne, (List.dropLast_append_getLast hne).symm⟩
  have hl' : l'.length = C - 1 := by simp at hl; omega
  rw [List.foldl_append,
    foldl_onData_small C sink apOk tn l' s (by rw [hbuf]; simp [hl']; omega)]
  simp only [List.foldl_cons, List.foldl_nil]
  have hcond : ({ s with buf := s.buf ++ l' } : LoopState).buf.length + 1 = C := by
    simp [hbuf, hl']; omega
  unfold onData
  simp only [hcond, if_pos]
  rw [hbuf]
  simp [hsink, sinkApply, hl', hC, Nat.sub_add_cancel hC]

/-- Chunks of the empty list. -/
theorem chunks_nil (C : Nat) : chunks C ([] : List Record) = [] := by
  rw [chunks]

/-- The unfolding equation of `chunks` on a non-empty list. -/
theorem chunks_cons (C : Nat) (a : Record) (l : List Record) :
    chunks C (a :: l) = (a :: l.take (C - 1)) :: chunks C (l.drop (C - 1)) := by
  rw [chunks]

/-- Splitting off one full chunk. -/
theorem chunks_cons_of_length (C : Nat) (hC : 0 < C) (x y : List Record)
    (hx : x.length = C) :
    chunks C (x ++ y) = x :: chunks C y := by
  rcases x with _ | ⟨a, x'⟩
  · simp at hx; omega
  · have hx' : x'.length = C - 1 := by simp at hx; omega
    rw [List.cons_append, chunks_cons, ← hx', List.take_left, List.drop_left]

/-- A non-empty list no longer than the capacity is a single chunk. -/
theorem chunks_short (C : Nat) (l : List Record) (h1 : l ≠ []) (h2 : l.length ≤ C) :
    chunks C l = [l] := by
  rcases l with _ | ⟨a, l'⟩
  · contradiction
  · have h3 : l'.length ≤ C - 1 := by simp at h2; omega
    rw [chunks_cons, List.take_of_length_le h3, List.drop_eq_nil_of_le h3, chunks_nil]

/-- No chunk is empty. -/
theorem ne_nil_of_mem_chunks (C : Nat) (l : List Record) :
    ∀ b ∈ chunks C l, b ≠ [] := by
  induction l using chunks.induct C with
  | case1 => rw [chunks_nil]; simp
  | case2 a l ih =>
    rw [chunks_cons]
    intro b hb
    rcases List.mem_cons.mp hb with h | h
    · subst h; simp
    · exact ih b h

/-- The number of chunks is the rounded-up quotient of the length. -/
theorem chunks_length (C : Nat) (hC : 0 < C) (l : List Record) :
    (chunks C l).length = (l.length + C - 1) / C := by
  induction l using chunks.induct C with
  | case1 =>
    rw [chunks_nil]
    simp [Nat.div_eq_of_lt (by omega : C - 1 < C)]
  | case2 a l ih =>
    rw [chunks_cons]
    simp only [List.length_cons, List.length_drop] at ih ⊢
    by_cases hm : C - 1 ≤ l.length
    · have h1 : l.length - (C - 1) + C - 1 = l.length := by omega
      have h2 : l.length + 1 + C - 1 = l.length + C := by omega
      rw [ih, h1, h2, Nat.add_div_right _ hC]
    · have h1 : l.length - (C - 1) = 0 := by omega
      have h2 : l.length + 1 + C - 1 = l.length + C := by omega
      rw [ih, h1, h2, Nat.add_div_right _ hC]
      rw [Nat.div_eq_of_lt (by omega), Nat.div_eq_of_lt (by omega)]

/-- Every chunk except possibly the last has exactly `C` elements. -/
theorem chunks_dropLast_length (C : Nat) (hC : 0 < C) (l : List Record) :
    ∀ b ∈ (chunks C l).dropLast, b.length = C := by
  induction l using chunks.induct C with
  | case1 => rw [chunks_nil]; simp
  | case2 a l ih =>
    rw [chunks_cons]
    by_cases ht : chunks C (l.drop (C - 1)) = []
    · rw [ht]; simp
    · rw [List.dropLast_cons_of_ne_nil ht]
      intro b hb
      rcases List.mem_cons.mp hb with h | h
      · subst h
        have hd : l.drop (C - 1) ≠ [] := by
          intro e; rw [e, chunks_nil] at ht; exact ht rfl
        have hlen : C - 1 < l.length := by
          by_contra hcon
          exact hd (List.drop_eq_nil_of_le (by omega))
        simp [List.length_take]
        omega
      · exact ih b h

/-- The last chunk has `len % C` elements, or `C` when `C` divides. -/
theorem chunks_getLast_length (C : Nat) (hC : 0 < C) (l : List Record) :
    ∀ b, (chunks C l).getLast? = some b →
      b.length = if l.length % C = 0 then C else l.length % C := by
  induction l using chunks.induct C with
  | case1 =>
    rw [chunks_nil]
    intro b hb
    simp at hb
  | case2 a l ih =>
    rw [chunks_cons]
    intro b hb
    by_cases ht : chunks C (l.drop (C - 1)) = []
    · rw [ht] at hb
      simp at hb
      have hd : l.drop (C - 1) = [] := by
        by_contra hcon
        rcases he : l.drop (C - 1) with _ | ⟨x, xs⟩
        · exact hcon he
        · rw [he, chunks_cons] at ht; simp at ht
      have hlen : l.length ≤ C - 1 := by
        by_contra hcon
        have := List.length_drop (C - 1) l
        rw [hd] at this
        simp at this
        omega
      rw [← hb]
      simp [List.take_of_length_le hlen, List.length_cons]
      by_cases hfull : l.length + 1 = C
      · rw [hfull]
        simp [Nat.mod_self]
      · rw [Nat.mod_eq_of_lt (by omega), if_neg (by omega)]

    · have hstep : ((a :: l.take (C - 1)) :: chunks C (l.drop (C - 1))).getLast?
          = (chunks C (l.drop (C - 1))).getLast? := by
        rcases he : chunks C (l.drop (C - 1)) with _ | ⟨x, xs⟩
        · exact absurd he ht
        · rw [List.getLast?_cons_cons]
      rw [hstep] at hb
      have hd : l.drop (C - 1) ≠ [] := by
        intro e; rw [e, chunks_nil] at ht; exact ht rfl
      have hlen : C - 1 < l.length := by
        by_contra hcon
        exact hd (List.drop_eq_nil_of_le (by omega))
      have hres := ih b hb
      rw [List.length_drop] at hres
      have hmod : (l.length + 1) % C = (l.length - (C - 1)) % C := by
        have h3 : l.length + 1 = C + (l.length - (C - 1)) := by omega
        rw [h3, Nat.add_mod_left]
      rw [List.length_cons, hmod]
      exact hres

/-- Splitting `chunks` at the largest multiple of `C` below the length:
the full chunks, then the trailing partial chunk. -/
theorem chunks_take_drop (C : Nat) (hC : 0 < C) :
    ∀ (n : Nat) (l : List Record), l.length = n →
      chunks C l = chunks C (l.take (l.length - l.length % C))
        ++ chunks C (l.drop (l.length - l.length % C)) := by
  intro n
  induction n using Nat.strong_induction_on with
  | _ n ih =>
    intro l hlen
    by_cases hsmall : l.length < C
    · have h0 : l.length - l.length % C = 0 := by
        rw [Nat.mod_eq_of_lt hsmall]; omega
      rw [h0]
      simp [chunks_nil]
    · push_neg at hsmall
      have e1 : l = l.take C ++ l.drop C := (List.take_append_drop C l).symm
      have hlt : (l.take C).length = C := by
        simp [List.length_take]; omega
      have hdl : (l.drop C).length = l.length - C := List.length_drop C l
      have hmod : l.length % C = (l.length - C) % C := by
        have h3 : l.length = C + (l.length - C) := by omega
        conv_lhs => rw [h3]
        rw [Nat.add_mod_left]
      have hkey : l.length - l.length % C
          = C + ((l.drop C).length - (l.drop C).length % C) := by
        rw [hdl]
        have h6 := Nat.mod_le (l.length - C) C
        have hml : l.length % C < C := Nat.mod_lt _ hC
        omega
      have htake : l.take (l.length - l.length % C)
          = l.take C ++ (l.drop C).take ((l.drop C).length - (l.drop C).length % C) := by
        rw [hkey, List.take_add]
      have hdrop : l.drop (l.length - l.length % C)
          = (l.drop C).drop ((l.drop C).length - (l.drop C).length % C) := by
        rw [hkey, ← List.drop_drop]
      have hrec := ih (l.drop C).length (by rw [hdl]; omega) (l.drop C) rfl
      conv_lhs => rw [e1]
      rw [chunks_cons_of_length C hC _ _ hlt, hrec, htake, hdrop,
        chunks_cons_of_length C hC _ _ hlt]
      simp

/-- The whole `data` fold of a failure-free job, from a state with an
empty buffer: the full chunks are committed in order and the trailing
partial chunk stays in the buffer. -/
theorem foldl_onData_ok (C : Nat) (hC : 0 < C) (apOk : Bool) (tn : String) :
    ∀ (n : Nat) (records : List Record), records.length = n →
      ∀ (s : LoopState), s.buf = [] →
        records.foldl (onData C okSink apOk tn) s =
          { s with
            total := s.total + (records.length - records.length % C),
            buf := records.drop (records.length - records.length % C),
            attempts := s.attempts
              ++ chunks C (records.take (records.length - records.length % C)),
            store := s.store ++ records.take (records.length - records.length % C) } := by
  intro n
  induction n using Nat.strong_induction_on with
  | _ n ih =>
    intro records hlen s hbuf
    by_cases hsmall : records.length < C
    · have h0 : records.length - records.length % C = 0 := by
        rw [Nat.mod_eq_of_lt hsmall]; omega
      rw [foldl_onData_small C okSink apOk tn records s (by rw [hbuf]; simpa)]
      rw [h0, hbuf]
      simp [chunks_nil]
    · push_neg at hsmall
      have hlt : (records.take C).length = C := by
        simp [List.length_take]; omega
      have e1 : records.foldl (onData C okSink apOk tn) s
          = (records.drop C).foldl (onData C okSink apOk tn)
              ((records.take C).foldl (onData C okSink apOk tn) s) := by
        rw [← List.foldl_append, List.take_append_drop]
      have e2 := foldl_onData_chunk C hC okSink apOk tn (records.take C) hlt s hbuf rfl
      have hdl : (records.drop C).length = records.length - C := List.length_drop C records
      have hrec := ih (records.drop C).length (by rw [hdl]; omega) (records.drop C) rfl
        { s with total := s.total + C, buf := [],
                 attempts := s.attempts ++ [records.take C],
                 store := s.store ++ records.take C } rfl
      rw [e1, e2, hrec]
      have hmod : records.length % C = (records.length - C) % C := by
        have h3 : records.length = C + (records.length - C) := by omega
        conv_lhs => rw [h3]
        rw [Nat.add_mod_left]
      have hkey : records.length - records.length % C
          = C + ((records.drop C).length - (records.drop C).length % C) := by
        rw [hdl]
        have h6 := Nat.mod_le (records.length - C) C
        have hml : records.length % C < C := Nat.mod_lt _ hC
        omega
      have htake : records.take (records.length - records.length % C)
          = records.take C
            ++ (records.drop C).take ((records.drop C).length - (records.drop C).length % C) := by
        rw [hkey, List.take_add]
      have hdrop : records.drop (records.length - records.length % C)
          = (records.drop C).drop ((records.drop C).length - (records.drop C).length % C) := by
        rw [hkey, ← List.drop_drop]
      rw [hdrop, htake, hkey, chunks_cons_of_length C hC _ _ hlt]
      simp [List.append_assoc, Nat.add_assoc]

/-- Claim C4: for every capacity `C ≥ 1` and failure-free source of `N`
records, the job hands the sink exactly the consecutive `C`-sized
chunks of the source — `⌈N / C⌉` commit attempts, every one but the
last of size `C`, the last of size `N mod C` (or `C` when `C` divides
`N`), never an empty batch (the trailing batch is emitted at source end
only when the buffer is non-empty) — and resolves with total `N`. -/
theorem batching_shape (C : Nat) (hC : 1 ≤ C) (tn : String) (records : List Record) :
    (runJob C okSink true tn records .eof).attempts = chunks C records ∧
    (runJob C okSink true tn records .eof).attempts.length
        = (records.length + C - 1) / C ∧
    (∀ b ∈ (runJob C okSink true tn records .eof).attempts.dropLast, b.length = C) ∧
    (∀ b, (runJob C okSink true tn records .eof).attempts.getLast? = some b →
        b.length = if records.length % C = 0 then C else records.length % C) ∧
    (∀ b ∈ (runJob C okSink true tn records .eof).attempts, b ≠ []) ∧
    (runJob C okSink true tn records .eof).settled
        = some (.resolved records.length) := by
  have hC0 : 0 < C := hC
  have hmain : (runJob C okSink true tn records .eof).attempts = chunks C records ∧
      (runJob C okSink true tn records .eof).settled
        = some (.resolved records.length) := by
    unfold runJob dataPhase
    rw [foldl_onData_ok C hC0 true tn records.length records rfl initState rfl]
    by_cases hr : records.length % C = 0
    · rw [hr]
      simp only [Nat.sub_zero, List.drop_length, List.take_length]
      unfold onEnd
      simp [initState, settle]
    · have hmle := Nat.mod_le records.length C
      have hmlt : records.length % C < C := Nat.mod_lt _ hC0
      have hblen : (records.drop (records.length - records.length % C)).length
          = records.length % C := by
        rw [List.length_drop]; omega
      have hbne : records.drop (records.length - records.length % C) ≠ [] := by
        intro e
        rw [e] at hblen
        simp at hblen
        omega
      unfold onEnd
      simp only [initState, hblen]
      rw [if_pos (by omega : records.length % C > 0)]
      simp only [okSink, sinkApply]
      constructor
      · rw [chunks_take_drop C hC0 records.length records rfl,
          chunks_short C _ hbne (by omega)]
        simp
      · simp [settle]
        omega
  refine ⟨hmain.1, ?_, ?_, ?_, ?_, hmain.2⟩
  · rw [hmain.1, chunks_length C hC0]
  · rw [hmain.1]
    exact chunks_dropLast_length C hC0 records
  · rw [hmain.1]
    exact chunks_getLast_length C hC0 records
  · rw [hmain.1]
    exact ne_nil_of_mem_chunks C records

/-- Claim C4, witness: capacity 2 on a three-record source gives two
commit attempts shaped `[2, 1]` and a completed total of 3. -/
theorem batching_shape_witness :
    1 ≤ 2 ∧
    (runJob 2 okSink true "organizations" [rec1, rec2, rec3] .eof).attempts
        = chunks 2 [rec1, rec2, rec3] ∧
    (runJob 2 okSink true "organizations" [rec1, rec2, rec3] .eof).settled
        = some (.resolved 3) :=
  ⟨by decide,
    (batching_shape 2 (by decide) "organizations" [rec1, rec2, rec3]).1,
    (batching_shape 2 (by decide) "organizations" [rec1, rec2, rec3]).2.2.2.2.2⟩

/-- One `data` step with a working logger preserves the invariant of an
unsettled job: the running total counts exactly the sizes of the
attempts so far (all of which succeeded) and the durable store holds
exactly their records. -/
theorem onData_unsettled_inv (C : Nat) (sink : Nat → SinkRes) (tn : String)
    (s : LoopState) (r : Record)
    (hP : s.settled = none →
      s.total = (s.attempts.map List.length).sum ∧ s.store = s.attempts.flatten) :
    (onData C sink true tn s r).settled = none →
      (onData C sink true tn s r).total
          = ((onData C sink true tn s r).attempts.map List.length).sum ∧
      (onData C sink true tn s r).store
          = ((onData C sink true tn s r).attempts).flatten := by
  unfold onData
  by_cases hfull : (s.buf ++ [r]).length = C
  · have hfull' : s.buf.length + 1 = C := by simpa using hfull
    cases hres : sink s.attempts.length
    · intro hnone
      simp only [if_pos hfull, hres] at hnone ⊢
      simp at hnone ⊢
      obtain ⟨h1, h2⟩ := hP hnone
      refine ⟨?_, by simp [sinkApply, h2]⟩
      simp [sinkApply, h1]
    · intro hnone
      simp only [if_pos hfull, hres] at hnone
      simp at hnone
      exact absurd hnone (settle_ne_none _ _)
    · intro hnone
      simp only [if_pos hfull, hres] at hnone
      simp at hnone
      exact absurd hnone (settle_ne_none _ _)
  · intro hnone
    simp only [if_neg hfull] at hnone ⊢
    exact hP hnone

/-- The invariant of `onData_unsettled_inv`, folded over a record list. -/
theorem foldl_onData_unsettled_inv (C : Nat) (sink : Nat → SinkRes) (tn : String)
    (l : List Record) :
    ∀ (s : LoopState),
      (s.settled = none →
        s.total = (s.attempts.map List.length).sum ∧ s.store = s.attempts.flatten) →
      ((l.foldl (onData C sink true tn) s).settled = none →
        (l.foldl (onData C sink true tn) s).total
            = ((l.foldl (onData C sink true tn) s).attempts.map List.length).sum ∧
        (l.foldl (onData C sink true tn) s).store
            = ((l.foldl (onData C sink true tn) s).attempts).flatten) := by
  induction l with
  | nil => intro s h; simpa using h
  | cons r l ih =>
    intro s h
    simp only [List.foldl_cons]
    exact ih _ (onData_unsettled_inv C sink tn s r h)

/-- A job still unsettled after its `data` phase has counted exactly
its successful attempts, whose rows are the durable ones. -/
theorem dataPhase_unsettled_inv (C : Nat) (sink : Nat → SinkRes) (tn : String)
    (records : List Record)
    (h : (dataPhase C sink true tn records).settled = none) :
    (dataPhase C sink true tn records).total
        = ((dataPhase C sink true tn records).attempts.map List.length).sum ∧
    (dataPhase C sink true tn records).store
        = ((dataPhase C sink true tn records).attempts).flatten := by
  unfold dataPhase at h ⊢
  exact foldl_onData_unsettled_inv C sink tn records initState
    (by intro _; simp [initState]) h

/-- Claim C8: when the source raises a decode error, the stream `error`
handler rejects with the total accumulated so far and does not touch
the in-flight partial buffer: no further batch is handed to the sink
and the store keeps exactly the rows of the prior successful batches,
whose sizes the reported total sums. -/
theorem source_error_behavior (C : Nat) (sink : Nat → SinkRes) (tn err : String)
    (records : List Record)
    (h : (dataPhase C sink true tn records).settled = none) :
    (runJob C sink true tn records (.decodeError err)).settled
        = some (.rejected (dataPhase C sink true tn records).total (csvErrorMsg tn err)) ∧
    (runJob C sink true tn records (.decodeError err)).attempts
        = (dataPhase C sink true tn records).attempts ∧
    (runJob C sink true tn records (.decodeError err)).store
        = (dataPhase C sink true tn records).store ∧
    (dataPhase C sink true tn records).total
        = ((dataPhase C sink true tn records).attempts.map List.length).sum ∧
    (dataPhase C sink true tn records).store
        = ((dataPhase C sink true tn records).attempts).flatten := by
  have hinv := dataPhase_unsettled_inv C sink tn records h
  refine ⟨?_, rfl, rfl, hinv.1, hinv.2⟩
  unfold runJob
  dsimp only
  rw [h]
  simp [settle]

/-- Claim C8, witness: capacity 2, three clean records, then a decode
error — the job rejects with the two rows of the one committed batch. -/
theorem source_error_behavior_witness :
    (dataPhase 2 okSink true "customers" [rec1, rec2, rec3]).settled = none ∧
    (runJob 2 okSink true "customers" [rec1, rec2, rec3] (.decodeError "truncated")).settled
        = some (.rejected (dataPhase 2 okSink true "customers" [rec1, rec2, rec3]).total
            (csvErrorMsg "customers" "truncated")) :=
  ⟨by decide,
    (source_error_behavior 2 okSink "customers" "truncated" [rec1, rec2, rec3] (by decide)).1⟩

/-- The escaping of one character never emits a newline. -/
theorem nl_not_mem_jsonEscapeChar (c : Char) : '\n' ∉ jsonEscapeChar c := by
  unfold jsonEscapeChar
  split_ifs with h1 h2 h3 h4 h5
  · decide
  · decide
  · decide
  · decide
  · decide
  · intro hmem
    rw [List.mem_singleton] at hmem
    exact h3 hmem.symm

/-- The escaping of a string never emits a newline. -/
theorem nl_not_mem_jsonEscape (s : String) : '\n' ∉ jsonEscape s := by
  unfold jsonEscape
  intro h
  rcases List.mem_flatten.mp h with ⟨l, hl, hc⟩
  rcases List.mem_map.mp hl with ⟨c, _, rfl⟩
  exact nl_not_mem_jsonEscapeChar c hc

/-- A JSON string literal contains no newline. -/
theorem nl_not_mem_jsonStringLit (s : String) : '\n' ∉ jsonStringLit s := by
  unfold jsonStringLit
  intro h
  rcases List.mem_cons.mp h with h | h
  · exact absurd h (by decide)
  · rcases List.mem_append.mp h with h | h
    · exact nl_not_mem_jsonEscape s h
    · exact absurd h (by decide)

/-- A JSON member contains no newline. -/
theorem nl_not_mem_jsonField (kv : String × String) : '\n' ∉ jsonField kv := by
  unfold jsonField
  intro h
  rcases List.mem_append.mp h with h | h
  · exact nl_not_mem_jsonStringLit kv.1 h
  · rcases List.mem_cons.mp h with h | h
    · exact absurd h (by decide)
    · exact nl_not_mem_jsonStringLit kv.2 h

/-- An intercalation of newline-free pieces by a newline-free separator
is newline-free. -/
theorem nl_not_mem_intercalate (sep : List Char) (hsep : '\n' ∉ sep) :
    ∀ (ls : List (List Char)), (∀ l ∈ ls, '\n' ∉ l) → '\n' ∉ sep.intercalate ls := by
  intro ls
  induction ls with
  | nil => intro _; simp [List.intercalate]
  | cons a t ih =>
    intro h
    cases t with
    | nil =>
      simpa [List.intercalate, List.intersperse_singleton] using
        h a (List.mem_cons_self a [])
    | cons b t' =>
      intro hc
      simp only [List.intercalate, List.intersperse_cons_cons, List.flatten_cons] at hc
      rcases List.mem_append.mp hc with h1 | hrest
      · exact h a (by simp) h1
      · rcases List.mem_append.mp hrest with h2 | h3
        · exact hsep h2
        · exact ih (fun l hl => h l (List.mem_cons_of_mem a hl))
            (by simpa [List.intercalate] using h3)

/-- The JSON serialization of a row contains no newline. -/
theorem nl_not_mem_jsonRecord (r : Record) : '\n' ∉ jsonRecord r := by
  unfold jsonRecord
  intro h
  rcases List.mem_cons.mp h with h | h
  · exact absurd h (by decide)
  · rcases List.mem_append.mp h with h | h
    · refine nl_not_mem_intercalate [','] (by decide) (r.map jsonField) ?_ h
      intro l hl
      rcases List.mem_map.mp hl with ⟨kv, _, rfl⟩
      exact nl_not_mem_jsonField kv
    · exact absurd h (by decide)

/-- Claim C9, counterexample: the text appended for a failed batch of
the `customers` job is the bare JSON of its records; it nowhere
contains the resource name `customers`, so the appended lines are not
tagged with the resource name (nor with any timestamp). -/
theorem log_lines_no_resource_tag :
    (logFailedRows [[("First Name", "Aurora")]]).isSome = true ∧
    containsSeq ("customers".toList)
        ((logFailedRows [[("First Name", "Aurora")]]).getD []) = false := by
  decide

/-- Claim C9 (amended): for a non-empty failed batch the logger appends
the records' `JSON.stringify` lines joined by newlines plus a trailing
newline; splitting the joined body on the newline separator recovers
exactly one JSON-serialized line per record, in order — but no line is
tagged with the resource name or a timestamp. -/
theorem log_lines_untagged (rows : List Record) (h : rows ≠ []) :
    logFailedRows rows
        = some (['\n'].intercalate (rows.map jsonRecord) ++ ['\n']) ∧
    (['\n'].intercalate (rows.map jsonRecord)).splitOn '\n'
        = rows.map jsonRecord ∧
    (rows.map jsonRecord).length = rows.length := by
  refine ⟨?_, ?_, by simp⟩
  · unfold logFailedRows
    rw [if_pos]
    cases rows with
    | nil => exact absurd rfl h
    | cons a t => simp
  · refine List.splitOn_intercalate (rows.map jsonRecord) '\n' ?_ (by simpa using h)
    intro l hl
    rcases List.mem_map.mp hl with ⟨r, _, rfl⟩
    exact nl_not_mem_jsonRecord r

/-- Claim C9 (amended), witness: a one-record batch appends exactly its
one JSON line followed by the trailing newline. -/
theorem log_lines_untagged_witness :
    ([[("First Name", "Aurora")]] : List Record) ≠ [] ∧
    logFailedRows [[("First Name", "Aurora")]]
        = some (['\n'].intercalate (([[("First Name", "Aurora")]] : List Record).map jsonRecord)
            ++ ['\n']) :=
  ⟨by decide, (log_lines_untagged [[("First Name", "Aurora")]] (by decide)).1⟩

/-- Claim C10: whatever the pipeline does — succeed or raise — `main`
catches the error, logs it, and exits with status 0 from the `finally`
block; the exit status is never non-zero. -/
theorem runner_exit_zero (pipeline : Except String Unit) :
    (mainExit pipeline).1 = 0 ∧
    ((mainExit pipeline).2 = true ↔ ∃ e, pipeline = .error e) := by
  cases pipeline <;> simp [mainExit]

end DataPipeline
